import Mathlib

/-!
Verification of the FHETimeCapsule contract (packages/hardhat/contracts/FHETimeCapsule.sol)
and of the message chunk codec described in the design document.

The contract is shallowly embedded: contract storage becomes an explicit
`ContractState`, every external function becomes a Lean function from state
(plus `msg.sender` / `block.timestamp` arguments) to `Except CapsuleError`
of the new state, mirroring Solidity's revert-on-require semantics.
Opaque FHE ciphertext handles are modelled abstractly: `FHE.fromExternal`
keeps the external handle value, `FHE.asEbool`/`FHE.asEaddress` mirror the
plaintext value, and the per-field access-control list built by `FHE.allow`
is tracked as a list of (field handle, recipient) pairs.
-/

namespace TimeCapsuleSpec

/-- Ethereum addresses, modelled as naturals; `0` is the zero address. -/
abbrev Address := Nat

/-- An opaque FHE ciphertext handle of one field of one capsule.  The FHE
access-control list (`FHE.allow` in the source) is per handle, and
`_allowCapsuleTo` allows exactly the creator, unlock-time, isActive and
isUnlocked handles plus one handle per stored message chunk. -/
inductive FHandle where
  | creatorH (capsuleId : Nat)
  | unlockTimeH (capsuleId : Nat)
  | isActiveH (capsuleId : Nat)
  | isUnlockedH (capsuleId : Nat)
  | chunkH (capsuleId : Nat) (index : Nat)
deriving DecidableEq, Repr

/-- The `TimeCapsule` struct of the contract.  Encrypted mirrors are modelled
by the values they encrypt (for the chunks: by the imported handle values). -/
structure TimeCapsule where
  encryptedMessage : List Nat
  encryptedUnlockTime : Nat
  encryptedIsActive : Bool
  encryptedIsUnlocked : Bool
  encryptedCreator : Address
  creator : Address
  unlockTime : Nat
  isActive : Bool
  isUnlocked : Bool
deriving DecidableEq, Repr

/-- Solidity default value of a `TimeCapsule` storage slot. -/
def defaultCapsule : TimeCapsule :=
  { encryptedMessage := []
    encryptedUnlockTime := 0
    encryptedIsActive := false
    encryptedIsUnlocked := false
    encryptedCreator := 0
    creator := 0
    unlockTime := 0
    isActive := false
    isUnlocked := false }

/-- The events the contract emits.  `capsuleEncryptionGranted` carries the
stored chunk handle values, as the Solidity event does. -/
inductive Event where
  | capsuleCreated (capsuleId : Nat) (creator : Address) (unlockTime : Nat)
  | capsuleUnlocked (capsuleId : Nat) (creator : Address)
  | capsuleCancelled (capsuleId : Nat) (creator : Address)
  | capsuleEncryptionGranted (capsuleId : Nat) (recipient : Address) (messageHandles : List Nat)
deriving DecidableEq, Repr

/-- One revert reason per `require` string in the contract. -/
inductive CapsuleError where
  | encryptedMessageRequired
  | messageProofMismatch
  | unlockTimeMustBeInFuture
  | onlyCreatorCanCancel
  | capsuleIsNotActive
  | capsuleIsAlreadyUnlocked
  | unlockTimeHasNotArrived
  | invalidRecipient
  | capsuleNotUnlocked
  | onlyCreatorCanShare
deriving DecidableEq, Repr

/-- The contract storage: the two mappings, the id counter, plus the FHE
access-control list and the emitted event log (newest last). -/
structure ContractState where
  timeCapsules : Nat → TimeCapsule
  userCapsules : Address → List Nat
  nextCapsuleId : Nat
  acl : List (FHandle × Address)
  events : List Event

/-- State right after deployment: empty mappings, `nextCapsuleId = 1`. -/
def initialState : ContractState :=
  { timeCapsules := fun _ => defaultCapsule
    userCapsules := fun _ => []
    nextCapsuleId := 1
    acl := []
    events := [] }

/-- Model of `FHE.fromExternal`: imports an external ciphertext; modelled as keeping
the external handle value (the proof only participates in the arity check). -/
def fromExternal (externalHandle : Nat) (_inputProof : Nat) : Nat :=
  externalHandle

/-- The full set of field handles of a capsule, exactly the handles
`_allowCapsuleTo` calls `FHE.allow` on. -/
def capsuleFieldHandles (capsuleId : Nat) (capsule : TimeCapsule) : List FHandle :=
  [FHandle.creatorH capsuleId, FHandle.unlockTimeH capsuleId,
   FHandle.isActiveH capsuleId, FHandle.isUnlockedH capsuleId] ++
    (List.range capsule.encryptedMessage.length).map (FHandle.chunkH capsuleId)

/-- Model of `_allowCapsuleTo`: grant FHE decryption permission on every field handle
of the capsule to `recipient` and emit `CapsuleEncryptionGranted`. -/
def allowCapsuleTo (s : ContractState) (capsuleId : Nat) (recipient : Address) : ContractState :=
  let capsule := s.timeCapsules capsuleId
  { s with
    acl := s.acl ++ (capsuleFieldHandles capsuleId capsule).map (fun h => (h, recipient))
    events := s.events ++
      [Event.capsuleEncryptionGranted capsuleId recipient capsule.encryptedMessage] }

/-- Model of `createTimeCapsule`.  Checks, in source order: non-empty chunk list,
chunk/proof arity, strictly future unlock time; then stores the capsule
under the next id, records it for the sender and emits `CapsuleCreated`. -/
def createTimeCapsule (s : ContractState) (sender : Address)
    (encryptedMessageChunks : List Nat) (messageProofs : List Nat)
    (encryptedUnlockTimeHandle : Nat) (unlockTimeProof : Nat)
    (unlockTime : Nat) (blockTimestamp : Nat) :
    Except CapsuleError (ContractState × Nat) :=
  if encryptedMessageChunks.length = 0 then
    Except.error CapsuleError.encryptedMessageRequired
  else if encryptedMessageChunks.length ≠ messageProofs.length then
    Except.error CapsuleError.messageProofMismatch
  else if ¬ unlockTime > blockTimestamp then
    Except.error CapsuleError.unlockTimeMustBeInFuture
  else
    let capsuleId := s.nextCapsuleId
    let capsule : TimeCapsule :=
      { encryptedMessage := List.zipWith fromExternal encryptedMessageChunks messageProofs
        encryptedUnlockTime := fromExternal encryptedUnlockTimeHandle unlockTimeProof
        encryptedIsActive := true
        encryptedIsUnlocked := false
        encryptedCreator := sender
        creator := sender
        unlockTime := unlockTime
        isActive := true
        isUnlocked := false }
    Except.ok
      ({ s with
          timeCapsules := fun j => if j = capsuleId then capsule else s.timeCapsules j
          userCapsules := fun a =>
            if a = sender then s.userCapsules a ++ [capsuleId] else s.userCapsules a
          nextCapsuleId := s.nextCapsuleId + 1
          events := s.events ++ [Event.capsuleCreated capsuleId sender unlockTime] },
        capsuleId)

/-- Model of `cancelTimeCapsule`: only the creator, only while active and not
unlocked; clears `isActive` (and its mirror) and emits `CapsuleCancelled`. -/
def cancelTimeCapsule (s : ContractState) (sender : Address) (capsuleId : Nat) :
    Except CapsuleError ContractState :=
  if (s.timeCapsules capsuleId).creator ≠ sender then
    Except.error CapsuleError.onlyCreatorCanCancel
  else if (s.timeCapsules capsuleId).isActive = false then
    Except.error CapsuleError.capsuleIsNotActive
  else if (s.timeCapsules capsuleId).isUnlocked = true then
    Except.error CapsuleError.capsuleIsAlreadyUnlocked
  else
    Except.ok
      { s with
        timeCapsules := fun j =>
          if j = capsuleId then
            { s.timeCapsules capsuleId with isActive := false, encryptedIsActive := false }
          else s.timeCapsules j
        events := s.events ++ [Event.capsuleCancelled capsuleId sender] }

/-- Model of `_openCapsule`: flip the lifecycle flags and their mirrors, grant all
field handles to the creator and, if different, to the requestor, and emit
`CapsuleUnlocked`. -/
def openCapsuleInternal (s : ContractState) (capsuleId : Nat) (requestor : Address) :
    ContractState :=
  let capsule := s.timeCapsules capsuleId
  let capsuleOpened :=
    { capsule with
      isActive := false, isUnlocked := true
      encryptedIsActive := false, encryptedIsUnlocked := true }
  let s1 :=
    { s with
      timeCapsules := fun j => if j = capsuleId then capsuleOpened else s.timeCapsules j }
  let s2 := allowCapsuleTo s1 capsuleId capsule.creator
  let s3 := if requestor ≠ capsule.creator then allowCapsuleTo s2 capsuleId requestor else s2
  { s3 with events := s3.events ++ [Event.capsuleUnlocked capsuleId capsule.creator] }

/-- Model of `openTimeCapsule`: anyone may open an active, not-yet-unlocked capsule
once `block.timestamp >= unlockTime`. -/
def openTimeCapsule (s : ContractState) (sender : Address) (capsuleId : Nat)
    (blockTimestamp : Nat) : Except CapsuleError ContractState :=
  if (s.timeCapsules capsuleId).isActive = false then
    Except.error CapsuleError.capsuleIsNotActive
  else if (s.timeCapsules capsuleId).isUnlocked = true then
    Except.error CapsuleError.capsuleIsAlreadyUnlocked
  else if ¬ blockTimestamp ≥ (s.timeCapsules capsuleId).unlockTime then
    Except.error CapsuleError.unlockTimeHasNotArrived
  else
    Except.ok (openCapsuleInternal s capsuleId sender)

/-- Model of `grantDecryptionAccess`: non-zero recipient, capsule unlocked, caller is
the creator; then grants all field handles to the recipient. -/
def grantDecryptionAccess (s : ContractState) (sender : Address) (capsuleId : Nat)
    (recipient : Address) : Except CapsuleError ContractState :=
  if recipient = 0 then
    Except.error CapsuleError.invalidRecipient
  else if (s.timeCapsules capsuleId).isUnlocked = false then
    Except.error CapsuleError.capsuleNotUnlocked
  else if (s.timeCapsules capsuleId).creator ≠ sender then
    Except.error CapsuleError.onlyCreatorCanShare
  else
    Except.ok (allowCapsuleTo s capsuleId recipient)

/-- Model of `getTimeCapsule`, the plaintext view: (creator, unlockTimestamp, isActive,
isUnlocked, messageLength).  Total: an unknown id reads the default slot. -/
def getTimeCapsule (s : ContractState) (capsuleId : Nat) :
    Address × Nat × Bool × Bool × Nat :=
  let capsule := s.timeCapsules capsuleId
  (capsule.creator, capsule.unlockTime, capsule.isActive, capsule.isUnlocked,
    capsule.encryptedMessage.length)

/-- Model of `getTotalCapsules`: returns `nextCapsuleId - 1`. -/
def getTotalCapsules (s : ContractState) : Nat :=
  s.nextCapsuleId - 1

/-- One external mutating call, with its `msg.sender` and, where the source
reads it, `block.timestamp`. -/
inductive Op where
  | create (sender : Address) (chunks : List Nat) (proofs : List Nat)
      (unlockHandle : Nat) (unlockProof : Nat) (unlockTime : Nat) (blockTimestamp : Nat)
  | cancel (sender : Address) (capsuleId : Nat)
  | openCap (sender : Address) (capsuleId : Nat) (blockTimestamp : Nat)
  | grant (sender : Address) (capsuleId : Nat) (recipient : Address)

/-- Apply one call with EVM revert semantics: a failed `require` leaves the
storage unchanged. -/
def applyOp (s : ContractState) (op : Op) : ContractState :=
  match op with
  | Op.create sender chunks proofs uh up ut ts =>
    match createTimeCapsule s sender chunks proofs uh up ut ts with
    | Except.ok (s', _) => s'
    | Except.error _ => s
  | Op.cancel sender capsuleId =>
    match cancelTimeCapsule s sender capsuleId with
    | Except.ok s' => s'
    | Except.error _ => s
  | Op.openCap sender capsuleId ts =>
    match openTimeCapsule s sender capsuleId ts with
    | Except.ok s' => s'
    | Except.error _ => s
  | Op.grant sender capsuleId recipient =>
    match grantDecryptionAccess s sender capsuleId recipient with
    | Except.ok s' => s'
    | Except.error _ => s

/-- Run a call sequence from the deployment state. -/
def execTrace (ops : List Op) : ContractState :=
  ops.foldl applyOp initialState

/-- The states reachable from deployment by any call sequence. -/
inductive Reachable : ContractState → Prop where
  | init : Reachable initialState
  | step (s : ContractState) (op : Op) : Reachable s → Reachable (applyOp s op)

/-- Ids of `CapsuleCreated` events, in emission order. -/
def createdIds (events : List Event) : List Nat :=
  events.filterMap fun e =>
    match e with
    | Event.capsuleCreated capsuleId _ _ => some capsuleId
    | _ => none

/-- The inductive invariant of the contract storage: the id counter starts
at one and only grows, every slot at or beyond the counter (and slot zero)
is still default, the lifecycle flags are mutually exclusive, and the
`CapsuleCreated` events carry exactly the ids `1 .. nextCapsuleId - 1` in
order. -/
def Inv (s : ContractState) : Prop :=
  1 ≤ s.nextCapsuleId ∧
  (∀ capsuleId, capsuleId = 0 ∨ s.nextCapsuleId ≤ capsuleId →
    s.timeCapsules capsuleId = defaultCapsule) ∧
  (∀ capsuleId, (s.timeCapsules capsuleId).isActive = true →
    (s.timeCapsules capsuleId).isUnlocked = false) ∧
  createdIds s.events = List.range' 1 (s.nextCapsuleId - 1)

/-! ### The chunk codec

The codec lives in the `useFHETimeCapsule` capsule hook
(packages/nextjs/components/helper/RainbowKitCustomConnectButton/index.tsx,
third concatenated document): `encodeMessageToChunks` turns the message
into 256-bit chunk values for encryption, and `decodeMessageFromResults`
turns per-handle decryption results back into the message.
`textEncoder.encode` and `textDecoder.decode` form the UTF-8 boundary of
the two functions, so the model works on the byte sequences they exchange:
the encoder takes the UTF-8 bytes of the message, the decoder returns the
bytes it hands to `textDecoder.decode`.  A byte is a natural below 256, a
`Uint8Array` is a list of bytes, a JS `bigint` is a natural, and every
`undefined` return is `none`. -/

/-- The fixed chunk width of the codec: `BYTES_PER_CHUNK = 32`. -/
def BYTES_PER_CHUNK : Nat := 32

/-- Model of `bytesToBigInt`: the two-hex-digit strings of the bytes are
concatenated and parsed, which reads the byte list as one big-endian
number. -/
def bytesToBigInt (bytes : List Nat) : Nat :=
  bytes.foldl (fun acc b => acc * 256 + b) 0

/-- Model of `view.setUint32(0, messageBytes.length, false)`: the four
big-endian bytes of the length, wrapped to 32 bits as `DataView` does. -/
def setUint32be (n : Nat) : List Nat :=
  [n / 16777216 % 256, n / 65536 % 256, n / 256 % 256, n % 256]

/-- One turn of the encoder's chunk loop: the slice of the prefixed buffer
starting at `i * BYTES_PER_CHUNK`, copied to the front of a fresh all-zero
`Uint8Array(BYTES_PER_CHUNK)`. -/
def chunkAt (bytes : List Nat) (i : Nat) : List Nat :=
  let piece := (bytes.drop (i * BYTES_PER_CHUNK)).take BYTES_PER_CHUNK
  piece ++ List.replicate (BYTES_PER_CHUNK - piece.length) 0

/-- Model of `encodeMessageToChunks` from the byte stage on (its first
line, `textEncoder.encode(message)`, is the UTF-8 boundary): prepend the
4-byte big-endian byte length, split into `Math.ceil(length / 32)` chunks
of 32 bytes (the last zero-padded), and read each chunk as a bigint. -/
def encodeMessageToChunks (messageBytes : List Nat) : List Nat :=
  let prefixed := setUint32be messageBytes.length ++ messageBytes
  let chunkCount := (prefixed.length + BYTES_PER_CHUNK - 1) / BYTES_PER_CHUNK
  (List.range chunkCount).map (fun i => bytesToBigInt (chunkAt prefixed i))

/-- The union `string | bigint | boolean` of decryption result values; the
string case carries the bytes `ethers.getBytes` parses from the hex
string. -/
inductive DecryptedValue where
  | boolVal (b : Bool)
  | bigintVal (n : Nat)
  | stringVal (bytes : List Nat)
deriving DecidableEq, Repr

/-- Big-endian bytes of a natural at a fixed width, dropping higher bytes:
the `hex.slice(-64).padStart(64, "0")` step of `valueToBytes32`. -/
def natToBeBytes : Nat → Nat → List Nat
  | 0, _ => []
  | w + 1, v => natToBeBytes w (v / 256) ++ [v % 256]

/-- Model of `valueToBytes32`: a boolean becomes 31 zero bytes and a 0/1
byte, a bigint becomes its last 32 big-endian bytes, and a hex string's
bytes are kept at 32 bytes, truncated from the left or left-padded with
zeros; no input of these three types is ever rejected. -/
def valueToBytes32 : DecryptedValue → List Nat
  | DecryptedValue.boolVal b =>
    List.replicate (BYTES_PER_CHUNK - 1) 0 ++ [if b then 1 else 0]
  | DecryptedValue.bigintVal n => natToBeBytes BYTES_PER_CHUNK n
  | DecryptedValue.stringVal bytes =>
    if bytes.length = BYTES_PER_CHUNK then bytes
    else if bytes.length > BYTES_PER_CHUNK then bytes.drop (bytes.length - BYTES_PER_CHUNK)
    else List.replicate (BYTES_PER_CHUNK - bytes.length) 0 ++ bytes

/-- Model of `concatUint8Arrays`. -/
def concatUint8Arrays (arrays : List (List Nat)) : List Nat :=
  arrays.flatten

/-- Model of `view.getUint32(0, false)`, read behind the source's
`merged.length < 4` guard; the under-4-bytes fallback is never reached. -/
def getUint32be : List Nat → Nat
  | b0 :: b1 :: b2 :: b3 :: _ => ((b0 * 256 + b1) * 256 + b2) * 256 + b3
  | _ => 0

/-- The decoder's lookup loop: resolve every handle in order through the
results map, converting each value with `valueToBytes32` and failing when
a result is missing. -/
def collectChunks (handles : List Nat) (results : Nat → Option DecryptedValue) :
    Option (List (List Nat)) :=
  match handles with
  | [] => some []
  | h :: rest =>
    match results h with
    | none => none
    | some v =>
      match collectChunks rest results with
      | none => none
      | some tail => some (valueToBytes32 v :: tail)

/-- Model of `decodeMessageFromResults` up to the UTF-8 boundary: handles
are abstract identifiers (standing for the hex strings, whose lowercase
lookup normalization has no counterpart on abstract keys), and the
returned bytes are what the source hands to `textDecoder.decode`: fail on
an empty handle list, resolve and convert every handle's result,
concatenate, read the big-endian declared length, fail if fewer bytes are
available than declared, else return exactly that many bytes after the
4-byte length field. -/
def decodeMessageFromResults (handles : List Nat)
    (results : Nat → Option DecryptedValue) : Option (List Nat) :=
  if handles.length = 0 then none
  else
    match collectChunks handles results with
    | none => none
    | some chunks =>
      let merged := concatUint8Arrays chunks
      if merged.length < 4 then none
      else
        let declaredLength := getUint32be merged
        if declaredLength > merged.length - 4 then none
        else some ((merged.drop 4).take declaredLength)

/-! ### A concrete call trace used by the witnesses -/

/-- A concrete creation call: sender 5 stores three chunks unlocking at
time 100, submitted at time 0. -/
def demoCreateOp : Op :=
  Op.create 5 [101, 202, 303] [0, 0, 0] 7 0 100 0

/-- State after the creation call: capsule 1 is active. -/
def demoS1 : ContractState :=
  execTrace [demoCreateOp]

/-- State after a non-creator (sender 6) opens capsule 1 exactly at the
unlock boundary. -/
def demoS2 : ContractState :=
  execTrace [demoCreateOp, Op.openCap 6 1 100]

/-! ### Basic lemmas about the operations -/

theorem createdIds_append (l1 l2 : List Event) :
    createdIds (l1 ++ l2) = createdIds l1 ++ createdIds l2 := by
  simp [createdIds, List.filterMap_append]

theorem allowCapsuleTo_timeCapsules (s : ContractState) (capsuleId : Nat) (recipient : Address) :
    (allowCapsuleTo s capsuleId recipient).timeCapsules = s.timeCapsules := rfl

theorem allowCapsuleTo_nextCapsuleId (s : ContractState) (capsuleId : Nat) (recipient : Address) :
    (allowCapsuleTo s capsuleId recipient).nextCapsuleId = s.nextCapsuleId := rfl

theorem allowCapsuleTo_acl (s : ContractState) (capsuleId : Nat) (recipient : Address) :
    (allowCapsuleTo s capsuleId recipient).acl =
      s.acl ++ (capsuleFieldHandles capsuleId (s.timeCapsules capsuleId)).map
        (fun h => (h, recipient)) := rfl

theorem allowCapsuleTo_events (s : ContractState) (capsuleId : Nat) (recipient : Address) :
    (allowCapsuleTo s capsuleId recipient).events =
      s.events ++ [Event.capsuleEncryptionGranted capsuleId recipient
        (s.timeCapsules capsuleId).encryptedMessage] := rfl

theorem allowCapsuleTo_acl_mono (s : ContractState) (capsuleId : Nat) (recipient : Address)
    (p : FHandle × Address) (hp : p ∈ s.acl) :
    p ∈ (allowCapsuleTo s capsuleId recipient).acl := by
  rw [allowCapsuleTo_acl]
  exact List.mem_append_left _ hp

theorem allowCapsuleTo_acl_grants (s : ContractState) (capsuleId : Nat) (recipient : Address)
    (h : FHandle) (hh : h ∈ capsuleFieldHandles capsuleId (s.timeCapsules capsuleId)) :
    (h, recipient) ∈ (allowCapsuleTo s capsuleId recipient).acl := by
  rw [allowCapsuleTo_acl]
  exact List.mem_append_right _ (List.mem_map_of_mem _ hh)

theorem openCapsuleInternal_timeCapsules (s : ContractState) (capsuleId : Nat)
    (requestor : Address) :
    (openCapsuleInternal s capsuleId requestor).timeCapsules = fun j =>
      if j = capsuleId then
        { s.timeCapsules capsuleId with
          isActive := false, isUnlocked := true
          encryptedIsActive := false, encryptedIsUnlocked := true }
      else s.timeCapsules j := by
  simp only [openCapsuleInternal, allowCapsuleTo]
  split <;> rfl

theorem openCapsuleInternal_nextCapsuleId (s : ContractState) (capsuleId : Nat)
    (requestor : Address) :
    (openCapsuleInternal s capsuleId requestor).nextCapsuleId = s.nextCapsuleId := by
  simp only [openCapsuleInternal, allowCapsuleTo]
  split <;> rfl

theorem openCapsuleInternal_createdIds (s : ContractState) (capsuleId : Nat)
    (requestor : Address) :
    createdIds (openCapsuleInternal s capsuleId requestor).events = createdIds s.events := by
  simp only [openCapsuleInternal, allowCapsuleTo]
  split <;> simp [createdIds_append, createdIds]

theorem openCapsuleInternal_unlocked_event (s : ContractState) (capsuleId : Nat)
    (requestor : Address) :
    Event.capsuleUnlocked capsuleId (s.timeCapsules capsuleId).creator ∈
      (openCapsuleInternal s capsuleId requestor).events := by
  simp only [openCapsuleInternal, allowCapsuleTo]
  split <;> simp

theorem capsuleFieldHandles_flags (capsuleId : Nat) (c : TimeCapsule) (a b a2 b2 : Bool) :
    capsuleFieldHandles capsuleId
      { c with isActive := a, isUnlocked := b, encryptedIsActive := a2,
               encryptedIsUnlocked := b2 } =
      capsuleFieldHandles capsuleId c := rfl

theorem openCapsuleInternal_acl (s : ContractState) (capsuleId : Nat) (requestor : Address) :
    (openCapsuleInternal s capsuleId requestor).acl =
      s.acl ++
        (capsuleFieldHandles capsuleId (s.timeCapsules capsuleId)).map
          (fun h => (h, (s.timeCapsules capsuleId).creator)) ++
        (if requestor ≠ (s.timeCapsules capsuleId).creator then
          (capsuleFieldHandles capsuleId (s.timeCapsules capsuleId)).map
            (fun h => (h, requestor))
        else []) := by
  simp only [openCapsuleInternal, allowCapsuleTo]
  split
  · simp [capsuleFieldHandles]
  · simp [capsuleFieldHandles]

theorem openCapsuleInternal_acl_grants (s : ContractState) (capsuleId : Nat)
    (requestor : Address) (h : FHandle)
    (hh : h ∈ capsuleFieldHandles capsuleId (s.timeCapsules capsuleId)) :
    (h, (s.timeCapsules capsuleId).creator) ∈ (openCapsuleInternal s capsuleId requestor).acl ∧
    (h, requestor) ∈ (openCapsuleInternal s capsuleId requestor).acl := by
  rw [openCapsuleInternal_acl]
  have hh' : ∀ r : Address, (h, r) ∈ (capsuleFieldHandles capsuleId
      (s.timeCapsules capsuleId)).map (fun x => (x, r)) :=
    fun r => List.mem_map_of_mem _ hh
  refine ⟨List.mem_append_left _ (List.mem_append_right _ (hh' _)), ?_⟩
  by_cases hr : requestor = (s.timeCapsules capsuleId).creator
  · rw [hr]
    exact List.mem_append_left _ (List.mem_append_right _ (hh' _))
  · rw [if_pos hr]
    exact List.mem_append_right _ (hh' _)

/-! ### Success characterizations of the mutating operations -/

theorem createTimeCapsule_ok_elim {s : ContractState} {sender : Address}
    {chunks proofs : List Nat} {uh up ut ts : Nat} {s' : ContractState} {capsuleId : Nat}
    (h : createTimeCapsule s sender chunks proofs uh up ut ts = Except.ok (s', capsuleId)) :
    chunks.length ≠ 0 ∧ chunks.length = proofs.length ∧ ts < ut ∧
    capsuleId = s.nextCapsuleId ∧
    s' = { s with
            timeCapsules := fun j =>
              if j = s.nextCapsuleId then
                { encryptedMessage := List.zipWith fromExternal chunks proofs
                  encryptedUnlockTime := fromExternal uh up
                  encryptedIsActive := true
                  encryptedIsUnlocked := false
                  encryptedCreator := sender
                  creator := sender
                  unlockTime := ut
                  isActive := true
                  isUnlocked := false }
              else s.timeCapsules j
            userCapsules := fun a =>
              if a = sender then s.userCapsules a ++ [s.nextCapsuleId] else s.userCapsules a
            nextCapsuleId := s.nextCapsuleId + 1
            events := s.events ++ [Event.capsuleCreated s.nextCapsuleId sender ut] } := by
  unfold createTimeCapsule at h
  split_ifs at h with h1 h2 h3
  simp only [Except.ok.injEq, Prod.mk.injEq] at h
  exact ⟨h1, by omega, by omega, h.2.symm, h.1.symm⟩

theorem cancelTimeCapsule_ok_elim {s : ContractState} {sender : Address} {capsuleId : Nat}
    {s' : ContractState}
    (h : cancelTimeCapsule s sender capsuleId = Except.ok s') :
    (s.timeCapsules capsuleId).creator = sender ∧
    (s.timeCapsules capsuleId).isActive = true ∧
    (s.timeCapsules capsuleId).isUnlocked = false ∧
    s' = { s with
            timeCapsules := fun j =>
              if j = capsuleId then
                { s.timeCapsules capsuleId with isActive := false, encryptedIsActive := false }
              else s.timeCapsules j
            events := s.events ++ [Event.capsuleCancelled capsuleId sender] } := by
  unfold cancelTimeCapsule at h
  split_ifs at h with h1 h2 h3
  simp only [Except.ok.injEq] at h
  refine ⟨by simpa using h1, ?_, ?_, h.symm⟩
  · cases hb : (s.timeCapsules capsuleId).isActive with
    | false => exact absurd hb h2
    | true => rfl
  · cases hb : (s.timeCapsules capsuleId).isUnlocked with
    | false => rfl
    | true => exact absurd hb h3

theorem openTimeCapsule_ok_elim {s : ContractState} {sender : Address} {capsuleId : Nat}
    {ts : Nat} {s' : ContractState}
    (h : openTimeCapsule s sender capsuleId ts = Except.ok s') :
    (s.timeCapsules capsuleId).isActive = true ∧
    (s.timeCapsules capsuleId).isUnlocked = false ∧
    (s.timeCapsules capsuleId).unlockTime ≤ ts ∧
    s' = openCapsuleInternal s capsuleId sender := by
  unfold openTimeCapsule at h
  split_ifs at h with h1 h2 h3
  simp only [Except.ok.injEq] at h
  refine ⟨?_, ?_, by omega, h.symm⟩
  · cases hb : (s.timeCapsules capsuleId).isActive with
    | false => exact absurd hb h1
    | true => rfl
  · cases hb : (s.timeCapsules capsuleId).isUnlocked with
    | false => rfl
    | true => exact absurd hb h2

theorem grantDecryptionAccess_ok_elim {s : ContractState} {sender : Address} {capsuleId : Nat}
    {recipient : Address} {s' : ContractState}
    (h : grantDecryptionAccess s sender capsuleId recipient = Except.ok s') :
    recipient ≠ 0 ∧
    (s.timeCapsules capsuleId).isUnlocked = true ∧
    (s.timeCapsules capsuleId).creator = sender ∧
    s' = allowCapsuleTo s capsuleId recipient := by
  unfold grantDecryptionAccess at h
  split_ifs at h with h1 h2 h3
  simp only [Except.ok.injEq] at h
  refine ⟨h1, ?_, by simpa using h3, h.symm⟩
  cases hb : (s.timeCapsules capsuleId).isUnlocked with
  | false => exact absurd hb h2
  | true => rfl

/-! ### The invariant holds in every reachable state -/

theorem createdIds_created (capsuleId : Nat) (creator : Address) (ut : Nat) :
    createdIds [Event.capsuleCreated capsuleId creator ut] = [capsuleId] := rfl

theorem createdIds_cancelled (capsuleId : Nat) (creator : Address) :
    createdIds [Event.capsuleCancelled capsuleId creator] = [] := rfl

theorem createdIds_granted (capsuleId : Nat) (recipient : Address) (hs : List Nat) :
    createdIds [Event.capsuleEncryptionGranted capsuleId recipient hs] = [] := rfl

theorem inv_initialState : Inv initialState :=
  ⟨Nat.le_refl 1, fun _ _ => rfl, fun _ _ => rfl, rfl⟩

theorem inv_applyOp (s : ContractState) (op : Op) (hInv : Inv s) : Inv (applyOp s op) := by
  obtain ⟨hge, hdef, hmutex, hids⟩ := hInv
  cases op with
  | create sender chunks proofs uh up ut ts =>
    simp only [applyOp]
    cases hc : createTimeCapsule s sender chunks proofs uh up ut ts with
    | error e => exact ⟨hge, hdef, hmutex, hids⟩
    | ok r =>
      obtain ⟨s', capsuleId⟩ := r
      show Inv s'
      obtain ⟨-, -, -, -, hs'⟩ := createTimeCapsule_ok_elim hc
      have hn : s'.nextCapsuleId = s.nextCapsuleId + 1 := by rw [hs']
      have ht : ∀ j, s'.timeCapsules j =
          if j = s.nextCapsuleId then
            { encryptedMessage := List.zipWith fromExternal chunks proofs
              encryptedUnlockTime := fromExternal uh up
              encryptedIsActive := true
              encryptedIsUnlocked := false
              encryptedCreator := sender
              creator := sender
              unlockTime := ut
              isActive := true
              isUnlocked := false }
          else s.timeCapsules j := fun j => by rw [hs']
      have hev : s'.events = s.events ++ [Event.capsuleCreated s.nextCapsuleId sender ut] := by
        rw [hs']
      refine ⟨by omega, ?_, ?_, ?_⟩
      · intro i hi
        rw [hn] at hi
        rw [ht i]
        rw [if_neg (by omega)]
        exact hdef i (by omega)
      · intro i
        rw [ht i]
        by_cases hik : i = s.nextCapsuleId
        · rw [if_pos hik]
          intro _
          rfl
        · rw [if_neg hik]
          exact hmutex i
      · rw [hev, createdIds_append, hids, hn, createdIds_created, Nat.add_sub_cancel]
        have h1 : s.nextCapsuleId - 1 + 1 = s.nextCapsuleId := by omega
        have hcat := @List.range'_concat 1 1 (s.nextCapsuleId - 1)
        rw [h1] at hcat
        have h2 : (1 : Nat) + 1 * (s.nextCapsuleId - 1) = s.nextCapsuleId := by omega
        rw [h2] at hcat
        exact hcat.symm
  | cancel sender capsuleId =>
    simp only [applyOp]
    cases hc : cancelTimeCapsule s sender capsuleId with
    | error e => exact ⟨hge, hdef, hmutex, hids⟩
    | ok s' =>
      show Inv s'
      obtain ⟨hcr, hact, hunl, hs'⟩ := cancelTimeCapsule_ok_elim hc
      have hn : s'.nextCapsuleId = s.nextCapsuleId := by rw [hs']
      have ht : ∀ j, s'.timeCapsules j =
          if j = capsuleId then
            { s.timeCapsules capsuleId with isActive := false, encryptedIsActive := false }
          else s.timeCapsules j := fun j => by rw [hs']
      have hev : s'.events = s.events ++ [Event.capsuleCancelled capsuleId sender] := by
        rw [hs']
      refine ⟨by omega, ?_, ?_, ?_⟩
      · intro i hi
        rw [hn] at hi
        rw [ht i]
        by_cases hik : i = capsuleId
        · exfalso
          rw [hik] at hi
          have hd := hdef capsuleId hi
          rw [hd] at hact
          simp [defaultCapsule] at hact
        · rw [if_neg hik]
          exact hdef i hi
      · intro i
        rw [ht i]
        by_cases hik : i = capsuleId
        · rw [if_pos hik]
          intro hcontra
          simp at hcontra
        · rw [if_neg hik]
          exact hmutex i
      · rw [hev, createdIds_append, hids, hn, createdIds_cancelled]
        simp
  | openCap sender capsuleId ts =>
    simp only [applyOp]
    cases hc : openTimeCapsule s sender capsuleId ts with
    | error e => exact ⟨hge, hdef, hmutex, hids⟩
    | ok s' =>
      show Inv s'
      obtain ⟨hact, hunl, hts, hs'⟩ := openTimeCapsule_ok_elim hc
      have hn : s'.nextCapsuleId = s.nextCapsuleId := by
        rw [hs', openCapsuleInternal_nextCapsuleId]
      have ht : ∀ j, s'.timeCapsules j =
          if j = capsuleId then
            { s.timeCapsules capsuleId with
              isActive := false, isUnlocked := true
              encryptedIsActive := false, encryptedIsUnlocked := true }
          else s.timeCapsules j := fun j => by
        rw [hs', openCapsuleInternal_timeCapsules]
      have hevc : createdIds s'.events = createdIds s.events := by
        rw [hs', openCapsuleInternal_createdIds]
      refine ⟨by omega, ?_, ?_, ?_⟩
      · intro i hi
        rw [hn] at hi
        rw [ht i]
        by_cases hik : i = capsuleId
        · exfalso
          rw [hik] at hi
          have hd := hdef capsuleId hi
          rw [hd] at hact
          simp [defaultCapsule] at hact
        · rw [if_neg hik]
          exact hdef i hi
      · intro i
        rw [ht i]
        by_cases hik : i = capsuleId
        · rw [if_pos hik]
          intro hcontra
          simp at hcontra
        · rw [if_neg hik]
          exact hmutex i
      · rw [hevc, hids, hn]
  | grant sender capsuleId recipient =>
    simp only [applyOp]
    cases hc : grantDecryptionAccess s sender capsuleId recipient with
    | error e => exact ⟨hge, hdef, hmutex, hids⟩
    | ok s' =>
      show Inv s'
      obtain ⟨-, -, -, hs'⟩ := grantDecryptionAccess_ok_elim hc
      have hn : s'.nextCapsuleId = s.nextCapsuleId := by rw [hs', allowCapsuleTo_nextCapsuleId]
      have ht : ∀ j, s'.timeCapsules j = s.timeCapsules j := fun j => by
        rw [hs', allowCapsuleTo_timeCapsules]
      have hevc : createdIds s'.events = createdIds s.events := by
        rw [hs', allowCapsuleTo_events, createdIds_append, createdIds_granted]
        simp
      refine ⟨by omega, ?_, ?_, ?_⟩
      · intro i hi
        rw [hn] at hi
        rw [ht i]
        exact hdef i hi
      · intro i
        rw [ht i]
        exact hmutex i
      · rw [hevc, hids, hn]

theorem inv_reachable (s : ContractState) (h : Reachable s) : Inv s := by
  induction h with
  | init => exact inv_initialState
  | step s op _ ih => exact inv_applyOp s op ih

theorem reachable_foldl (ops : List Op) (s : ContractState) (h : Reachable s) :
    Reachable (ops.foldl applyOp s) := by
  induction ops generalizing s with
  | nil => exact h
  | cons op rest ih => exact ih (applyOp s op) (Reachable.step s op h)

theorem reachable_execTrace (ops : List Op) : Reachable (execTrace ops) :=
  reachable_foldl ops initialState Reachable.init

/-! ### Codec round-trip lemmas -/

theorem chunkAt_length (bytes : List Nat) (i : Nat) :
    (chunkAt bytes i).length = BYTES_PER_CHUNK := by
  simp only [chunkAt, List.length_append, List.length_replicate, List.length_take]
  omega

theorem chunkAt_bytes_lt (bytes : List Nat) (hb : ∀ b ∈ bytes, b < 256) (i : Nat) :
    ∀ b ∈ chunkAt bytes i, b < 256 := by
  intro b hmem
  simp only [chunkAt, List.mem_append] at hmem
  rcases hmem with h1 | h2
  · exact hb b (List.mem_of_mem_drop (List.mem_of_mem_take h1))
  · rw [List.eq_of_mem_replicate h2]
    omega

theorem chunkAt_succ (bytes : List Nat) (i : Nat) :
    chunkAt bytes (i + 1) = chunkAt (bytes.drop BYTES_PER_CHUNK) i := by
  have h : bytes.drop ((i + 1) * BYTES_PER_CHUNK) =
      (bytes.drop BYTES_PER_CHUNK).drop (i * BYTES_PER_CHUNK) := by
    rw [List.drop_drop]
    congr 1
    ring
  simp only [chunkAt, h]

theorem chunkAt_flatten (cc : Nat) : ∀ bytes : List Nat,
    bytes.length ≤ cc * BYTES_PER_CHUNK →
    ((List.range cc).map (chunkAt bytes)).flatten =
      bytes ++ List.replicate (cc * BYTES_PER_CHUNK - bytes.length) 0 := by
  induction cc with
  | zero =>
    intro bytes hb
    have hnil : bytes = [] := List.eq_nil_of_length_eq_zero (by omega)
    subst hnil
    rfl
  | succ cc ih =>
    intro bytes hb
    rw [List.range_succ_eq_map, List.map_cons, List.map_map, List.flatten_cons]
    have hsucc : chunkAt bytes ∘ Nat.succ = chunkAt (bytes.drop BYTES_PER_CHUNK) := by
      funext i
      rw [Function.comp_apply]
      exact chunkAt_succ bytes i
    have hdl : (bytes.drop BYTES_PER_CHUNK).length ≤ cc * BYTES_PER_CHUNK := by
      simp only [List.length_drop, BYTES_PER_CHUNK] at *
      omega
    rw [hsucc, ih (bytes.drop BYTES_PER_CHUNK) hdl]
    simp only [chunkAt, Nat.zero_mul, List.drop_zero, List.length_drop]
    by_cases hle : bytes.length ≤ BYTES_PER_CHUNK
    · rw [List.take_of_length_le hle, List.drop_eq_nil_of_le hle]
      have harith : BYTES_PER_CHUNK - bytes.length +
          (cc * BYTES_PER_CHUNK - (bytes.length - BYTES_PER_CHUNK)) =
          (cc + 1) * BYTES_PER_CHUNK - bytes.length := by
        simp only [BYTES_PER_CHUNK] at *
        omega
      rw [List.append_assoc, List.nil_append, ← List.replicate_add, harith]
    · have htk : (bytes.take BYTES_PER_CHUNK).length = BYTES_PER_CHUNK := by
        simp only [List.length_take, BYTES_PER_CHUNK] at *
        omega
      rw [htk]
      simp only [Nat.sub_self, List.replicate_zero, List.append_nil]
      rw [← List.append_assoc, List.take_append_drop]
      have harith : cc * BYTES_PER_CHUNK - (bytes.length - BYTES_PER_CHUNK) =
          (cc + 1) * BYTES_PER_CHUNK - bytes.length := by
        simp only [BYTES_PER_CHUNK] at *
        omega
      rw [harith]

theorem bytesToBigInt_concat (bs : List Nat) (b : Nat) :
    bytesToBigInt (bs ++ [b]) = bytesToBigInt bs * 256 + b := by
  simp [bytesToBigInt, List.foldl_append]

theorem natToBeBytes_bytesToBigInt : ∀ (w : Nat) (block : List Nat), block.length = w →
    (∀ b ∈ block, b < 256) → natToBeBytes w (bytesToBigInt block) = block := by
  intro w
  induction w with
  | zero =>
    intro block hlen _
    rw [List.eq_nil_of_length_eq_zero hlen]
    rfl
  | succ w ih =>
    intro block hlen hb
    have hne : block ≠ [] := by
      intro h
      subst h
      simp at hlen
    obtain ⟨bs, b, hsplit⟩ : ∃ bs b, block = bs ++ [b] :=
      ⟨block.dropLast, block.getLast hne, (List.dropLast_append_getLast hne).symm⟩
    subst hsplit
    rw [bytesToBigInt_concat]
    have hblt : b < 256 := hb b (by simp)
    have hbs : ∀ x ∈ bs, x < 256 := fun x hx => hb x (by simp [hx])
    have hlbs : bs.length = w := by
      simp only [List.length_append, List.length_singleton] at hlen
      omega
    show natToBeBytes (w + 1) (bytesToBigInt bs * 256 + b) = bs ++ [b]
    simp only [natToBeBytes]
    have h1 : (bytesToBigInt bs * 256 + b) / 256 = bytesToBigInt bs := by omega
    have h2 : (bytesToBigInt bs * 256 + b) % 256 = b := by omega
    rw [h1, h2, ih bs hlbs hbs]

theorem valueToBytes32_bigint_block (block : List Nat)
    (hlen : block.length = BYTES_PER_CHUNK) (hb : ∀ b ∈ block, b < 256) :
    valueToBytes32 (DecryptedValue.bigintVal (bytesToBigInt block)) = block := by
  simp only [valueToBytes32]
  exact natToBeBytes_bytesToBigInt BYTES_PER_CHUNK block hlen hb

theorem collectChunks_map (results : Nat → Option DecryptedValue) :
    ∀ (handles : List Nat) (vals : List DecryptedValue),
      handles.map results = vals.map some →
      collectChunks handles results = some (vals.map valueToBytes32) := by
  intro handles
  induction handles with
  | nil =>
    intro vals h
    cases vals with
    | nil => rfl
    | cons v vs => simp at h
  | cons hd rest ih =>
    intro vals h
    cases vals with
    | nil => simp at h
    | cons v vs =>
      simp only [List.map_cons, List.cons.injEq] at h
      obtain ⟨h1, h2⟩ := h
      simp only [collectChunks, h1, ih vs h2, List.map_cons]

theorem setUint32be_bytes_lt (n : Nat) : ∀ b ∈ setUint32be n, b < 256 := by
  intro b hb
  simp only [setUint32be, List.mem_cons, List.not_mem_nil, or_false] at hb
  rcases hb with h | h | h | h <;> subst h <;> omega

theorem getUint32be_setUint32be (n : Nat) (rest : List Nat) (h : n < 4294967296) :
    getUint32be (setUint32be n ++ rest) = n := by
  simp only [setUint32be, List.cons_append, List.nil_append, getUint32be]
  omega

/-- A single call never resets `isUnlocked`: helper step lemma for the
monotonicity claim. -/
theorem isUnlocked_applyOp (s : ContractState) (op : Op) (hs : Reachable s) (capsuleId : Nat)
    (h : (s.timeCapsules capsuleId).isUnlocked = true) :
    ((applyOp s op).timeCapsules capsuleId).isUnlocked = true := by
  obtain ⟨hge, hdef, -, -⟩ := inv_reachable s hs
  cases op with
  | create sender chunks proofs uh up ut ts =>
    simp only [applyOp]
    cases hc : createTimeCapsule s sender chunks proofs uh up ut ts with
    | error e => exact h
    | ok r =>
      obtain ⟨s', cid⟩ := r
      show (s'.timeCapsules capsuleId).isUnlocked = true
      obtain ⟨-, -, -, -, hs'⟩ := createTimeCapsule_ok_elim hc
      have ht : ∀ j, s'.timeCapsules j =
          if j = s.nextCapsuleId then
            { encryptedMessage := List.zipWith fromExternal chunks proofs
              encryptedUnlockTime := fromExternal uh up
              encryptedIsActive := true
              encryptedIsUnlocked := false
              encryptedCreator := sender
              creator := sender
              unlockTime := ut
              isActive := true
              isUnlocked := false }
          else s.timeCapsules j := fun j => by rw [hs']
      rw [ht capsuleId]
      by_cases hik : capsuleId = s.nextCapsuleId
      · exfalso
        have hd := hdef s.nextCapsuleId (Or.inr (Nat.le_refl _))
        rw [hik, hd] at h
        simp [defaultCapsule] at h
      · rw [if_neg hik]
        exact h
  | cancel sender cid =>
    simp only [applyOp]
    cases hc : cancelTimeCapsule s sender cid with
    | error e => exact h
    | ok s' =>
      show (s'.timeCapsules capsuleId).isUnlocked = true
      obtain ⟨-, -, -, hs'⟩ := cancelTimeCapsule_ok_elim hc
      have ht : ∀ j, s'.timeCapsules j =
          if j = cid then
            { s.timeCapsules cid with isActive := false, encryptedIsActive := false }
          else s.timeCapsules j := fun j => by rw [hs']
      rw [ht capsuleId]
      by_cases hik : capsuleId = cid
      · subst hik
        rw [if_pos rfl]
        exact h
      · rw [if_neg hik]
        exact h
  | openCap sender cid ts =>
    simp only [applyOp]
    cases hc : openTimeCapsule s sender cid ts with
    | error e => exact h
    | ok s' =>
      show (s'.timeCapsules capsuleId).isUnlocked = true
      obtain ⟨-, -, -, hs'⟩ := openTimeCapsule_ok_elim hc
      have ht : ∀ j, s'.timeCapsules j =
          if j = cid then
            { s.timeCapsules cid with
              isActive := false, isUnlocked := true
              encryptedIsActive := false, encryptedIsUnlocked := true }
          else s.timeCapsules j := fun j => by
        rw [hs', openCapsuleInternal_timeCapsules]
      rw [ht capsuleId]
      by_cases hik : capsuleId = cid
      · rw [if_pos hik]
      · rw [if_neg hik]
        exact h
  | grant sender cid recipient =>
    simp only [applyOp]
    cases hc : grantDecryptionAccess s sender cid recipient with
    | error e => exact h
    | ok s' =>
      show (s'.timeCapsules capsuleId).isUnlocked = true
      obtain ⟨-, -, -, hs'⟩ := grantDecryptionAccess_ok_elim hc
      have ht : s'.timeCapsules capsuleId = s.timeCapsules capsuleId := by
        rw [hs', allowCapsuleTo_timeCapsules]
      rw [ht]
      exact h

/-! ### The claims -/

/-- C1: in every reachable contract state, no capsule ever has its
plaintext flags `isActive` and `isUnlocked` simultaneously true. -/
theorem flags_never_both_true (s : ContractState) (hs : Reachable s) (capsuleId : Nat) :
    ¬((s.timeCapsules capsuleId).isActive = true ∧
      (s.timeCapsules capsuleId).isUnlocked = true) := by
  obtain ⟨-, -, hmutex, -⟩ := inv_reachable s hs
  intro hcontra
  obtain ⟨ha, hu⟩ := hcontra
  rw [hmutex capsuleId ha] at hu
  exact Bool.false_ne_true hu

/-- Witness for C1 at a concrete reachable state (capsule 1 just opened). -/
theorem flags_never_both_true_witness :
    ¬((demoS2.timeCapsules 1).isActive = true ∧ (demoS2.timeCapsules 1).isUnlocked = true) :=
  flags_never_both_true demoS2 (reachable_execTrace [demoCreateOp, Op.openCap 6 1 100]) 1

/-- C3: `isUnlocked` is monotone: from any reachable state in which a
capsule is unlocked, it stays unlocked after any further call sequence. -/
theorem isUnlocked_monotone (s : ContractState) (hs : Reachable s) (capsuleId : Nat)
    (h : (s.timeCapsules capsuleId).isUnlocked = true) (ops : List Op) :
    ((ops.foldl applyOp s).timeCapsules capsuleId).isUnlocked = true := by
  induction ops generalizing s with
  | nil => exact h
  | cons op rest ih =>
    exact ih (applyOp s op) (Reachable.step s op hs) (isUnlocked_applyOp s op hs capsuleId h)

/-- Witness for C3: capsule 1, unlocked in `demoS2`, stays unlocked after a
further cancel attempt by its creator. -/
theorem isUnlocked_monotone_witness :
    ((([Op.cancel 5 1].foldl applyOp demoS2).timeCapsules 1).isUnlocked = true) :=
  isUnlocked_monotone demoS2 (reachable_execTrace [demoCreateOp, Op.openCap 6 1 100]) 1
    rfl [Op.cancel 5 1]

/-- C7: the chunk codec round-trips: for every byte string `m` shorter
than 2^32 bytes, when the decryption results return, handle by handle and
in order, exactly the chunk values `encodeMessageToChunks` produced for
`m`, `decodeMessageFromResults` returns `m` exactly. -/
theorem decode_encode_roundtrip (m : List Nat) (hm : ∀ b ∈ m, b < 256)
    (hlen : m.length < 4294967296) (handles : List Nat)
    (results : Nat → Option DecryptedValue)
    (hres : handles.map results =
      (encodeMessageToChunks m).map (fun c => some (DecryptedValue.bigintVal c))) :
    decodeMessageFromResults handles results = some m := by
  obtain ⟨prefixed, hprefixed⟩ : ∃ p, p = setUint32be m.length ++ m := ⟨_, rfl⟩
  obtain ⟨cc, hcc⟩ : ∃ c, c = (prefixed.length + BYTES_PER_CHUNK - 1) / BYTES_PER_CHUNK :=
    ⟨_, rfl⟩
  have hB : BYTES_PER_CHUNK = 32 := rfl
  have hplen : prefixed.length = 4 + m.length := by
    rw [hprefixed]
    simp [setUint32be]
    omega
  have hpb : ∀ b ∈ prefixed, b < 256 := by
    rw [hprefixed]
    intro b hb
    rcases List.mem_append.mp hb with h1 | h2
    · exact setUint32be_bytes_lt m.length b h1
    · exact hm b h2
  have hccle : prefixed.length ≤ cc * BYTES_PER_CHUNK := by
    rw [hcc, hB]
    omega
  have hcc1 : 1 ≤ cc := by
    rw [hcc, hB]
    omega
  have henc : encodeMessageToChunks m =
      (List.range cc).map (fun i => bytesToBigInt (chunkAt prefixed i)) := by
    rw [hcc, hprefixed]
    rfl
  rw [henc] at hres
  have hvals : handles.map results =
      ((List.range cc).map
        (fun i => DecryptedValue.bigintVal (bytesToBigInt (chunkAt prefixed i)))).map
        some := by
    rw [hres, List.map_map, List.map_map]
    rfl
  have hcollect := collectChunks_map results handles _ hvals
  have hblocks : ((List.range cc).map
      (fun i => DecryptedValue.bigintVal (bytesToBigInt (chunkAt prefixed i)))).map
        valueToBytes32 =
      (List.range cc).map (chunkAt prefixed) := by
    rw [List.map_map]
    apply List.map_congr_left
    intro i _
    exact valueToBytes32_bigint_block (chunkAt prefixed i) (chunkAt_length prefixed i)
      (chunkAt_bytes_lt prefixed hpb i)
  have hhlen : handles.length = cc := by
    have hcg := congrArg List.length hvals
    simpa using hcg
  have hlen4 : ¬((prefixed ++
      List.replicate (cc * 32 - prefixed.length) 0).length < 4) := by
    simp only [List.length_append, List.length_replicate]
    omega
  have hread : getUint32be (prefixed ++
      List.replicate (cc * 32 - prefixed.length) 0) = m.length := by
    rw [hprefixed, List.append_assoc]
    exact getUint32be_setUint32be m.length _ hlen
  have hccle32 : prefixed.length ≤ cc * 32 := by
    rw [← hB]
    exact hccle
  have hdecl : ¬(m.length > (prefixed ++
      List.replicate (cc * 32 - prefixed.length) 0).length - 4) := by
    simp only [List.length_append, List.length_replicate]
    omega
  have hdrop : (prefixed ++
      List.replicate (cc * 32 - prefixed.length) 0).drop 4 =
      m ++ List.replicate (cc * 32 - prefixed.length) 0 := by
    rw [hprefixed, List.append_assoc]
    have h4 : (setUint32be m.length).length = 4 := rfl
    rw [← h4, List.drop_left]
  unfold decodeMessageFromResults
  rw [if_neg (by omega)]
  rw [hcollect]
  dsimp only
  rw [hblocks]
  simp only [concatUint8Arrays]
  rw [chunkAt_flatten cc prefixed hccle]
  simp only [hB]
  rw [if_neg hlen4, hread, if_neg hdecl, hdrop, List.take_left]

/-- Witness for C7 on the two-byte message `[72, 105]`, with one handle
resolving to the single encoded chunk. -/
theorem decode_encode_roundtrip_witness :
    decodeMessageFromResults [0]
      (fun h => (encodeMessageToChunks [72, 105])[h]?.map DecryptedValue.bigintVal) =
      some [72, 105] :=
  decode_encode_roundtrip [72, 105] (by decide) (by decide) [0]
    (fun h => (encodeMessageToChunks [72, 105])[h]?.map DecryptedValue.bigintVal)
    (by decide)

/-- C4: `createTimeCapsule` fails, with one of the three validation errors
and no state change, exactly when the chunk list is empty, the chunk/proof
arities mismatch, or the unlock time is not strictly in the future; on
success it assigns the fresh id `nextCapsuleId`, stores the plaintext
fields and their encrypted mirrors, and emits the created event. -/
theorem createTimeCapsule_spec (s : ContractState) (hs : Reachable s) (sender : Address)
    (chunks proofs : List Nat) (uh up ut ts : Nat) :
    ((∃ r, createTimeCapsule s sender chunks proofs uh up ut ts = Except.ok r) ↔
      (chunks ≠ [] ∧ chunks.length = proofs.length ∧ ts < ut)) ∧
    (∀ e, createTimeCapsule s sender chunks proofs uh up ut ts = Except.error e →
      (e = CapsuleError.encryptedMessageRequired ∨ e = CapsuleError.messageProofMismatch ∨
        e = CapsuleError.unlockTimeMustBeInFuture) ∧
      applyOp s (Op.create sender chunks proofs uh up ut ts) = s) ∧
    (∀ s' capsuleId, createTimeCapsule s sender chunks proofs uh up ut ts =
        Except.ok (s', capsuleId) →
      capsuleId = s.nextCapsuleId ∧
      s.timeCapsules capsuleId = defaultCapsule ∧
      s'.nextCapsuleId = s.nextCapsuleId + 1 ∧
      (s'.timeCapsules capsuleId).creator = sender ∧
      (s'.timeCapsules capsuleId).unlockTime = ut ∧
      (s'.timeCapsules capsuleId).isActive = true ∧
      (s'.timeCapsules capsuleId).isUnlocked = false ∧
      (s'.timeCapsules capsuleId).encryptedMessage = List.zipWith fromExternal chunks proofs ∧
      (s'.timeCapsules capsuleId).encryptedCreator = sender ∧
      (s'.timeCapsules capsuleId).encryptedUnlockTime = fromExternal uh up ∧
      (s'.timeCapsules capsuleId).encryptedIsActive = true ∧
      (s'.timeCapsules capsuleId).encryptedIsUnlocked = false ∧
      Event.capsuleCreated capsuleId sender ut ∈ s'.events) := by
  obtain ⟨hge, hdef, -, -⟩ := inv_reachable s hs
  refine ⟨⟨?_, ?_⟩, ?_, ?_⟩
  · intro hr
    obtain ⟨⟨s', capsuleId⟩, hok⟩ := hr
    obtain ⟨h1, h2, h3, -, -⟩ := createTimeCapsule_ok_elim hok
    exact ⟨by simpa [List.length_eq_zero] using h1, h2, h3⟩
  · intro hcond
    obtain ⟨h1, h2, h3⟩ := hcond
    unfold createTimeCapsule
    rw [if_neg (by simpa [List.length_eq_zero] using h1), if_neg (by omega),
      if_neg (by omega)]
    exact ⟨_, rfl⟩
  · intro e he
    have happ : applyOp s (Op.create sender chunks proofs uh up ut ts) = s := by
      simp only [applyOp, he]
    refine ⟨?_, happ⟩
    unfold createTimeCapsule at he
    split_ifs at he with h1 h2 h3
    · simp only [Except.error.injEq] at he
      exact Or.inl he.symm
    · simp only [Except.error.injEq] at he
      exact Or.inr (Or.inl he.symm)
    · simp only [Except.error.injEq] at he
      exact Or.inr (Or.inr he.symm)
  · intro s' capsuleId hok
    obtain ⟨h1, h2, h3, hid, hs'⟩ := createTimeCapsule_ok_elim hok
    have hn : s'.nextCapsuleId = s.nextCapsuleId + 1 := by rw [hs']
    have ht : ∀ j, s'.timeCapsules j =
        if j = s.nextCapsuleId then
          { encryptedMessage := List.zipWith fromExternal chunks proofs
            encryptedUnlockTime := fromExternal uh up
            encryptedIsActive := true
            encryptedIsUnlocked := false
            encryptedCreator := sender
            creator := sender
            unlockTime := ut
            isActive := true
            isUnlocked := false }
        else s.timeCapsules j := fun j => by rw [hs']
    have hev : s'.events = s.events ++ [Event.capsuleCreated s.nextCapsuleId sender ut] := by
      rw [hs']
    have hfresh : s.timeCapsules capsuleId = defaultCapsule :=
      hdef capsuleId (Or.inr (by omega))
    refine ⟨hid, hfresh, hn, ?_, ?_, ?_, ?_, ?_, ?_, ?_, ?_, ?_, ?_⟩ <;>
      first
      | (rw [ht capsuleId, if_pos hid])
      | (rw [hev, hid]; exact List.mem_append_right _ (List.mem_singleton.mpr rfl))

/-- Witness for C4: the demo creation call succeeds on the deployment
state. -/
theorem createTimeCapsule_spec_witness :
    ∃ r, createTimeCapsule initialState 5 [101, 202, 303] [0, 0, 0] 7 0 100 0 = Except.ok r :=
  (createTimeCapsule_spec initialState Reachable.init 5 [101, 202, 303] [0, 0, 0]
    7 0 100 0).1.mpr ⟨by decide, rfl, by decide⟩

/-- C5: `grantDecryptionAccess` succeeds exactly when the capsule is
unlocked, the caller is the creator and the recipient is non-zero; a zero
recipient fails the validation check, a grant before unlock or by a
non-creator fails the corresponding guard, and repeating an identical
grant succeeds again without changing the set of granted pairs. -/
theorem grantDecryptionAccess_spec (s : ContractState) (sender : Address) (capsuleId : Nat)
    (recipient : Address) :
    ((∃ s', grantDecryptionAccess s sender capsuleId recipient = Except.ok s') ↔
      ((s.timeCapsules capsuleId).isUnlocked = true ∧
        (s.timeCapsules capsuleId).creator = sender ∧ recipient ≠ 0)) ∧
    (recipient = 0 →
      grantDecryptionAccess s sender capsuleId recipient =
        Except.error CapsuleError.invalidRecipient) ∧
    (recipient ≠ 0 → (s.timeCapsules capsuleId).isUnlocked = false →
      grantDecryptionAccess s sender capsuleId recipient =
        Except.error CapsuleError.capsuleNotUnlocked) ∧
    (recipient ≠ 0 → (s.timeCapsules capsuleId).isUnlocked = true →
      (s.timeCapsules capsuleId).creator ≠ sender →
      grantDecryptionAccess s sender capsuleId recipient =
        Except.error CapsuleError.onlyCreatorCanShare) ∧
    (∀ s', grantDecryptionAccess s sender capsuleId recipient = Except.ok s' →
      (∀ h ∈ capsuleFieldHandles capsuleId (s.timeCapsules capsuleId),
        (h, recipient) ∈ s'.acl) ∧
      ∃ s'', grantDecryptionAccess s' sender capsuleId recipient = Except.ok s'' ∧
        ∀ p : FHandle × Address, p ∈ s''.acl ↔ p ∈ s'.acl) := by
  refine ⟨⟨?_, ?_⟩, ?_, ?_, ?_, ?_⟩
  · intro hr
    obtain ⟨s', hok⟩ := hr
    obtain ⟨hr0, hunl, hcr, -⟩ := grantDecryptionAccess_ok_elim hok
    exact ⟨hunl, hcr, hr0⟩
  · intro hcond
    obtain ⟨hunl, hcr, hr0⟩ := hcond
    unfold grantDecryptionAccess
    rw [if_neg hr0, if_neg (by simp [hunl]), if_neg (by simp [hcr])]
    exact ⟨_, rfl⟩
  · intro hr0
    unfold grantDecryptionAccess
    rw [if_pos hr0]
  · intro hr0 hunl
    unfold grantDecryptionAccess
    rw [if_neg hr0, if_pos hunl]
  · intro hr0 hunl hcr
    unfold grantDecryptionAccess
    rw [if_neg hr0, if_neg (by simp [hunl]), if_pos hcr]
  · intro s' hok
    obtain ⟨hr0, hunl, hcr, hs'⟩ := grantDecryptionAccess_ok_elim hok
    have htc : s'.timeCapsules capsuleId = s.timeCapsules capsuleId := by
      rw [hs', allowCapsuleTo_timeCapsules]
    refine ⟨?_, allowCapsuleTo s' capsuleId recipient, ?_, ?_⟩
    · intro h hh
      rw [hs']
      exact allowCapsuleTo_acl_grants s capsuleId recipient h hh
    · unfold grantDecryptionAccess
      rw [if_neg hr0, if_neg (by rw [htc]; simp [hunl]), if_neg (by rw [htc]; simp [hcr])]
    · intro p
      rw [allowCapsuleTo_acl]
      constructor
      · intro hp
        rcases List.mem_append.mp hp with hp1 | hp2
        · exact hp1
        · rw [htc] at hp2
          rw [hs', allowCapsuleTo_acl]
          exact List.mem_append_right _ hp2
      · exact List.mem_append_left _

/-- Witness for C5: after the demo open, the creator (5) grants capsule 1
to recipient 9. -/
theorem grantDecryptionAccess_spec_witness :
    ∃ s', grantDecryptionAccess demoS2 5 1 9 = Except.ok s' :=
  (grantDecryptionAccess_spec demoS2 5 1 9).1.mpr ⟨rfl, rfl, by decide⟩

/-- C6: `cancelTimeCapsule` succeeds exactly when the caller is the
creator and the capsule is active; on success it clears `isActive` and
emits the cancelled event, after which any further cancel of the same
capsule fails (for the creator, with the not-active guard); a cancel by
a non-creator fails the creator guard. -/
theorem cancelTimeCapsule_spec (s : ContractState) (hs : Reachable s) (sender : Address)
    (capsuleId : Nat) :
    ((∃ s', cancelTimeCapsule s sender capsuleId = Except.ok s') ↔
      ((s.timeCapsules capsuleId).creator = sender ∧
        (s.timeCapsules capsuleId).isActive = true)) ∧
    (sender ≠ (s.timeCapsules capsuleId).creator →
      cancelTimeCapsule s sender capsuleId = Except.error CapsuleError.onlyCreatorCanCancel) ∧
    (∀ s', cancelTimeCapsule s sender capsuleId = Except.ok s' →
      (s'.timeCapsules capsuleId).isActive = false ∧
      Event.capsuleCancelled capsuleId sender ∈ s'.events ∧
      cancelTimeCapsule s' sender capsuleId = Except.error CapsuleError.capsuleIsNotActive ∧
      (∀ sender2, ∃ e, cancelTimeCapsule s' sender2 capsuleId = Except.error e)) := by
  obtain ⟨-, -, hmutex, -⟩ := inv_reachable s hs
  refine ⟨⟨?_, ?_⟩, ?_, ?_⟩
  · intro hr
    obtain ⟨s', hok⟩ := hr
    obtain ⟨hcr, hact, -, -⟩ := cancelTimeCapsule_ok_elim hok
    exact ⟨hcr, hact⟩
  · intro hcond
    obtain ⟨hcr, hact⟩ := hcond
    unfold cancelTimeCapsule
    rw [if_neg (by simp [hcr]), if_neg (by simp [hact]),
      if_neg (by simp [hmutex capsuleId hact])]
    exact ⟨_, rfl⟩
  · intro hne
    unfold cancelTimeCapsule
    rw [if_pos (Ne.symm hne)]
  · intro s' hok
    obtain ⟨hcr, hact, hunl, hs'⟩ := cancelTimeCapsule_ok_elim hok
    have ht : ∀ j, s'.timeCapsules j =
        if j = capsuleId then
          { s.timeCapsules capsuleId with isActive := false, encryptedIsActive := false }
        else s.timeCapsules j := fun j => by rw [hs']
    have hev : s'.events = s.events ++ [Event.capsuleCancelled capsuleId sender] := by
      rw [hs']
    have hact' : (s'.timeCapsules capsuleId).isActive = false := by
      rw [ht capsuleId, if_pos rfl]
    have hcr' : (s'.timeCapsules capsuleId).creator = sender := by
      rw [ht capsuleId, if_pos rfl]
      exact hcr
    refine ⟨hact', ?_, ?_, ?_⟩
    · rw [hev]
      exact List.mem_append_right _ (List.mem_singleton.mpr rfl)
    · unfold cancelTimeCapsule
      rw [if_neg (by simp [hcr']), if_pos hact']
    · intro sender2
      by_cases hcr2 : (s'.timeCapsules capsuleId).creator = sender2
      · refine ⟨CapsuleError.capsuleIsNotActive, ?_⟩
        unfold cancelTimeCapsule
        rw [if_neg (by simp [hcr2]), if_pos hact']
      · refine ⟨CapsuleError.onlyCreatorCanCancel, ?_⟩
        unfold cancelTimeCapsule
        rw [if_pos hcr2]

/-- Witness for C6: the creator cancels the freshly created demo capsule. -/
theorem cancelTimeCapsule_spec_witness :
    ∃ s', cancelTimeCapsule demoS1 5 1 = Except.ok s' :=
  (cancelTimeCapsule_spec demoS1 (reachable_execTrace [demoCreateOp]) 5 1).1.mpr ⟨rfl, rfl⟩

/-- C2: `openTimeCapsule` succeeds, for any caller, exactly when the
capsule is active and the timestamp has reached the unlock time (the
boundary counts as expired); on success it clears `isActive`, sets
`isUnlocked`, grants every field handle to the creator and to the caller,
and emits the unlocked event; otherwise it fails with the violated guard's
error and the call leaves the state unchanged. -/
theorem openTimeCapsule_spec (s : ContractState) (hs : Reachable s) (sender : Address)
    (capsuleId : Nat) (blockTimestamp : Nat) :
    ((∃ s', openTimeCapsule s sender capsuleId blockTimestamp = Except.ok s') ↔
      ((s.timeCapsules capsuleId).isActive = true ∧
        (s.timeCapsules capsuleId).unlockTime ≤ blockTimestamp)) ∧
    (∀ s', openTimeCapsule s sender capsuleId blockTimestamp = Except.ok s' →
      (s'.timeCapsules capsuleId).isActive = false ∧
      (s'.timeCapsules capsuleId).isUnlocked = true ∧
      (∀ h ∈ capsuleFieldHandles capsuleId (s.timeCapsules capsuleId),
        (h, (s.timeCapsules capsuleId).creator) ∈ s'.acl ∧ (h, sender) ∈ s'.acl) ∧
      Event.capsuleUnlocked capsuleId (s.timeCapsules capsuleId).creator ∈ s'.events) ∧
    ((s.timeCapsules capsuleId).isActive = false →
      openTimeCapsule s sender capsuleId blockTimestamp =
        Except.error CapsuleError.capsuleIsNotActive) ∧
    ((s.timeCapsules capsuleId).isActive = true →
      blockTimestamp < (s.timeCapsules capsuleId).unlockTime →
      openTimeCapsule s sender capsuleId blockTimestamp =
        Except.error CapsuleError.unlockTimeHasNotArrived) ∧
    (∀ e, openTimeCapsule s sender capsuleId blockTimestamp = Except.error e →
      applyOp s (Op.openCap sender capsuleId blockTimestamp) = s) := by
  obtain ⟨-, -, hmutex, -⟩ := inv_reachable s hs
  refine ⟨⟨?_, ?_⟩, ?_, ?_, ?_, ?_⟩
  · intro hr
    obtain ⟨s', hok⟩ := hr
    obtain ⟨hact, -, hts, -⟩ := openTimeCapsule_ok_elim hok
    exact ⟨hact, hts⟩
  · intro hcond
    obtain ⟨hact, hts⟩ := hcond
    unfold openTimeCapsule
    rw [if_neg (by simp [hact]), if_neg (by simp [hmutex capsuleId hact]),
      if_neg (by omega)]
    exact ⟨_, rfl⟩
  · intro s' hok
    obtain ⟨hact, hunl, hts, hs'⟩ := openTimeCapsule_ok_elim hok
    have ht : ∀ j, s'.timeCapsules j =
        if j = capsuleId then
          { s.timeCapsules capsuleId with
            isActive := false, isUnlocked := true
            encryptedIsActive := false, encryptedIsUnlocked := true }
        else s.timeCapsules j := fun j => by
      rw [hs', openCapsuleInternal_timeCapsules]
    refine ⟨?_, ?_, ?_, ?_⟩
    · rw [ht capsuleId, if_pos rfl]
    · rw [ht capsuleId, if_pos rfl]
    · intro h hh
      rw [hs']
      exact openCapsuleInternal_acl_grants s capsuleId sender h hh
    · rw [hs']
      exact openCapsuleInternal_unlocked_event s capsuleId sender
  · intro hact
    unfold openTimeCapsule
    rw [if_pos hact]
  · intro hact hts
    unfold openTimeCapsule
    rw [if_neg (by simp [hact]), if_neg (by simp [hmutex capsuleId hact]),
      if_pos (by omega)]
  · intro e he
    simp only [applyOp, he]

/-- Witness for C2: a non-creator opens the demo capsule exactly at its
unlock time. -/
theorem openTimeCapsule_spec_witness :
    ∃ s', openTimeCapsule demoS1 6 1 100 = Except.ok s' :=
  (openTimeCapsule_spec demoS1 (reachable_execTrace [demoCreateOp]) 6 1 100).1.mpr
    ⟨rfl, by decide⟩

/-- C8: every successful cancel, open or grant leaves the capsule's
creator, unlock time, stored chunk handles and immutable encrypted mirrors
unchanged, does not touch the id counter, and leaves every other capsule
slot untouched. -/
theorem capsule_frame (s s' : ContractState) (sender : Address) (capsuleId : Nat)
    (blockTimestamp : Nat) (recipient : Address)
    (h : cancelTimeCapsule s sender capsuleId = Except.ok s' ∨
      openTimeCapsule s sender capsuleId blockTimestamp = Except.ok s' ∨
      grantDecryptionAccess s sender capsuleId recipient = Except.ok s') :
    (s'.timeCapsules capsuleId).creator = (s.timeCapsules capsuleId).creator ∧
    (s'.timeCapsules capsuleId).unlockTime = (s.timeCapsules capsuleId).unlockTime ∧
    (s'.timeCapsules capsuleId).encryptedMessage =
      (s.timeCapsules capsuleId).encryptedMessage ∧
    (s'.timeCapsules capsuleId).encryptedCreator =
      (s.timeCapsules capsuleId).encryptedCreator ∧
    (s'.timeCapsules capsuleId).encryptedUnlockTime =
      (s.timeCapsules capsuleId).encryptedUnlockTime ∧
    s'.nextCapsuleId = s.nextCapsuleId ∧
    (∀ j, j ≠ capsuleId → s'.timeCapsules j = s.timeCapsules j) := by
  rcases h with hc | hc | hc
  · obtain ⟨-, -, -, hs'⟩ := cancelTimeCapsule_ok_elim hc
    have ht : ∀ j, s'.timeCapsules j =
        if j = capsuleId then
          { s.timeCapsules capsuleId with isActive := false, encryptedIsActive := false }
        else s.timeCapsules j := fun j => by rw [hs']
    have hn : s'.nextCapsuleId = s.nextCapsuleId := by rw [hs']
    refine ⟨?_, ?_, ?_, ?_, ?_, hn, ?_⟩
    · rw [ht capsuleId, if_pos rfl]
    · rw [ht capsuleId, if_pos rfl]
    · rw [ht capsuleId, if_pos rfl]
    · rw [ht capsuleId, if_pos rfl]
    · rw [ht capsuleId, if_pos rfl]
    · intro j hj
      rw [ht j, if_neg hj]
  · obtain ⟨-, -, -, hs'⟩ := openTimeCapsule_ok_elim hc
    have ht : ∀ j, s'.timeCapsules j =
        if j = capsuleId then
          { s.timeCapsules capsuleId with
            isActive := false, isUnlocked := true
            encryptedIsActive := false, encryptedIsUnlocked := true }
        else s.timeCapsules j := fun j => by
      rw [hs', openCapsuleInternal_timeCapsules]
    have hn : s'.nextCapsuleId = s.nextCapsuleId := by
      rw [hs', openCapsuleInternal_nextCapsuleId]
    refine ⟨?_, ?_, ?_, ?_, ?_, hn, ?_⟩
    · rw [ht capsuleId, if_pos rfl]
    · rw [ht capsuleId, if_pos rfl]
    · rw [ht capsuleId, if_pos rfl]
    · rw [ht capsuleId, if_pos rfl]
    · rw [ht capsuleId, if_pos rfl]
    · intro j hj
      rw [ht j, if_neg hj]
  · obtain ⟨-, -, -, hs'⟩ := grantDecryptionAccess_ok_elim hc
    have ht : ∀ j, s'.timeCapsules j = s.timeCapsules j := fun j => by
      rw [hs', allowCapsuleTo_timeCapsules]
    have hn : s'.nextCapsuleId = s.nextCapsuleId := by
      rw [hs', allowCapsuleTo_nextCapsuleId]
    exact ⟨by rw [ht capsuleId], by rw [ht capsuleId], by rw [ht capsuleId],
      by rw [ht capsuleId], by rw [ht capsuleId], hn, fun j _ => ht j⟩

/-- Witness for C8 on the concrete cancel of the demo capsule. -/
theorem capsule_frame_witness :
    ((applyOp demoS1 (Op.cancel 5 1)).timeCapsules 1).creator =
      (demoS1.timeCapsules 1).creator :=
  (capsule_frame demoS1 (applyOp demoS1 (Op.cancel 5 1)) 5 1 0 0 (Or.inl rfl)).1

/-- C9: capsule ids start at one, are assigned strictly increasingly by
`createTimeCapsule`, are never reused, and `getTotalCapsules` counts the
successful creations. -/
theorem capsuleId_assignment (s : ContractState) (hs : Reachable s) :
    initialState.nextCapsuleId = 1 ∧
    getTotalCapsules s = s.nextCapsuleId - 1 ∧
    createdIds s.events = List.range' 1 (getTotalCapsules s) ∧
    (createdIds s.events).Nodup ∧
    (createdIds s.events).length = getTotalCapsules s ∧
    (∀ sender chunks proofs uh up ut ts s' capsuleId,
      createTimeCapsule s sender chunks proofs uh up ut ts = Except.ok (s', capsuleId) →
      capsuleId = s.nextCapsuleId ∧
      s'.nextCapsuleId = s.nextCapsuleId + 1 ∧
      capsuleId ∉ createdIds s.events ∧
      (∀ j ∈ createdIds s.events, j < capsuleId) ∧
      createdIds s'.events = createdIds s.events ++ [capsuleId] ∧
      getTotalCapsules s' = getTotalCapsules s + 1) := by
  obtain ⟨hge, -, -, hids⟩ := inv_reachable s hs
  refine ⟨rfl, rfl, hids, ?_, ?_, ?_⟩
  · rw [hids]
    exact List.nodup_range' 1 (getTotalCapsules s)
  · rw [hids]
    simp
    rfl
  · intro sender chunks proofs uh up ut ts s' capsuleId hok
    obtain ⟨-, -, -, hid, hs'⟩ := createTimeCapsule_ok_elim hok
    have hn : s'.nextCapsuleId = s.nextCapsuleId + 1 := by rw [hs']
    have hev : s'.events = s.events ++ [Event.capsuleCreated s.nextCapsuleId sender ut] := by
      rw [hs']
    refine ⟨hid, hn, ?_, ?_, ?_, ?_⟩
    · rw [hids, hid]
      intro hmem
      have := List.mem_range'_1.mp hmem
      have htot : getTotalCapsules s = s.nextCapsuleId - 1 := rfl
      omega
    · intro j hj
      rw [hids] at hj
      have := List.mem_range'_1.mp hj
      have htot : getTotalCapsules s = s.nextCapsuleId - 1 := rfl
      omega
    · rw [hev, createdIds_append, createdIds_created, hid]
    · show s'.nextCapsuleId - 1 = s.nextCapsuleId - 1 + 1
      omega

/-- Witness for C9 at the demo state with one created capsule. -/
theorem capsuleId_assignment_witness :
    createdIds demoS2.events = List.range' 1 (getTotalCapsules demoS2) :=
  (capsuleId_assignment demoS2
    (reachable_execTrace [demoCreateOp, Op.openCap 6 1 100])).2.2.1

/-- C10: `getTimeCapsule` on an id never assigned by a successful create
does not fail; it returns the all-default record (zero creator, zero
unlock time, both flags false, zero chunks). -/
theorem getTimeCapsule_unknown_id (s : ContractState) (hs : Reachable s) (capsuleId : Nat)
    (h : capsuleId ∉ createdIds s.events) :
    getTimeCapsule s capsuleId = (0, 0, false, false, 0) := by
  obtain ⟨hge, hdef, -, hids⟩ := inv_reachable s hs
  rw [hids] at h
  have hrange : capsuleId = 0 ∨ s.nextCapsuleId ≤ capsuleId := by
    by_contra hcon
    push_neg at hcon
    obtain ⟨h0, hlt⟩ := hcon
    exact h (List.mem_range'_1.mpr ⟨by omega, by omega⟩)
  have hd := hdef capsuleId hrange
  unfold getTimeCapsule
  rw [hd]
  rfl

/-- Witness for C10: id 7 was never assigned in the demo trace. -/
theorem getTimeCapsule_unknown_id_witness :
    getTimeCapsule demoS2 7 = (0, 0, false, false, 0) :=
  getTimeCapsule_unknown_id demoS2
    (reachable_execTrace [demoCreateOp, Op.openCap 6 1 100]) 7 (by decide)

end TimeCapsuleSpec
